import Mathlib

/-!
Shallow embedding of the workflow engine in `app/engine.py`.

The Python engine manipulates:
  * a state dictionary `Dict[str, Any]` (string keys, arbitrary values,
    possibly nested mutable objects such as lists);
  * a graph of named nodes, a single-successor edge map and an entry node;
  * per-node mutable `status` fields;
  * an execution log of per-attempt dictionaries.

Python values are modelled by `Value`; mutable nested objects (lists) live
in an explicit `Heap` and are referenced by `Value.vref`, so that the
shallow-copy semantics of `dict.copy()` (top level copied, nested objects
shared) is representable.  Dictionaries are association lists with
dict-like operations.  Transforms are Lean functions that receive the
state and the heap and either return an updated state (possibly having
mutated the heap) or raise, returning an error message together with the
heap as mutated so far, mirroring a Python exception.
-/

/-- A Python value as used by the engine: ints, strings, booleans, None,
or a reference into the heap of mutable list objects. -/
inductive Value where
  | vint : Int → Value
  | vstr : String → Value
  | vbool : Bool → Value
  | vnone : Value
  | vref : Nat → Value
deriving DecidableEq, Repr

/-- The heap of mutable list objects, addressed by position. -/
abbrev Heap := List (List Value)

/-- A state dictionary: string keys to values, insertion ordered. -/
abbrev StateDict := List (String × Value)

/-- Dictionary lookup: value at a key, first occurrence. -/
def lookupAssoc {α : Type} : List (String × α) → String → Option α
  | [], _ => Option.none
  | (k, v) :: rest, key => if k = key then Option.some v else lookupAssoc rest key

/-- Dictionary update `d[key] = v`: replaces the value in place if the key
is present, otherwise appends the binding (Python dicts keep insertion
order). -/
def setAssoc {α : Type} : List (String × α) → String → α → List (String × α)
  | [], key, v => [(key, v)]
  | (k, w) :: rest, key, v =>
    if k = key then (key, v) :: rest.map (fun p => if p.1 = key then (key, v) else p)
    else (k, w) :: setAssoc rest key v

/-- Dictionary removal `d.pop(key)`: drops the binding for `key`. -/
def popAssoc {α : Type} (l : List (String × α)) (key : String) : List (String × α) :=
  l.filter (fun p => ¬ (p.1 = key))

/-- Python truthiness of a value (`if v:`): zero, the empty string,
`False`, `None` and references to empty lists are falsy. -/
def truthy (h : Heap) : Value → Bool
  | Value.vint n => decide (n ≠ 0)
  | Value.vstr s => decide (s ≠ "")
  | Value.vbool b => b
  | Value.vnone => false
  | Value.vref r =>
    match h[r]? with
    | Option.some l => decide (l ≠ [])
    | Option.none => false

/-- Status of a node execution (`NodeStatus` in `engine.py`). -/
inductive NodeStatus where
  | pending
  | running
  | completed
  | failed
deriving DecidableEq, Repr

/-- A node transform: receives the state dict and the heap; returns the
updated state on normal return, or an error message if it raises.  The
heap is returned in both cases (a raising Python function keeps any heap
mutations it performed). -/
abbrev Transform := StateDict → Heap → Except String StateDict × Heap

/-- The per-node statuses (the mutable `Node.status` fields of the graph,
keyed by node name). -/
abbrev StatusMap := List (String × NodeStatus)

/-- Node.execute: sets status RUNNING, calls the transform, and reports
COMPLETED on normal return or FAILED when the transform raises (the
failure is re-raised to the caller). -/
def nodeExecute (f : Transform) (st : StateDict) (h : Heap) :
    Except String StateDict × Heap × NodeStatus :=
  match f st h with
  | (Except.ok st1, h1) => (Except.ok st1, h1, NodeStatus.completed)
  | (Except.error e, h1) => (Except.error e, h1, NodeStatus.failed)

/-- The workflow graph: node map (name to transform), single-successor
edge map, and the optional entry node name. -/
structure WorkflowGraph where
  graph_id : String
  nodes : List (String × Transform)
  edges : List (String × String)
  entry_node : Option String

/-- WorkflowGraph.add_node: inserts the node and makes it the entry node
if none is set yet. -/
def WorkflowGraph.add_node (g : WorkflowGraph) (name : String) (f : Transform) : WorkflowGraph :=
  { g with
    nodes := setAssoc g.nodes name f,
    entry_node :=
      match g.entry_node with
      | Option.none => Option.some name
      | Option.some e => Option.some e }

/-- WorkflowGraph.add_edge: raises ValueError when either endpoint is not
in the node set, otherwise records the edge. -/
def WorkflowGraph.add_edge (g : WorkflowGraph) (from_node to_node : String) :
    Except String WorkflowGraph :=
  if (lookupAssoc g.nodes from_node).isNone then
    Except.error ("Node '" ++ from_node ++ "' does not exist")
  else if (lookupAssoc g.nodes to_node).isNone then
    Except.error ("Node '" ++ to_node ++ "' does not exist")
  else
    Except.ok { g with edges := setAssoc g.edges from_node to_node }

/-- WorkflowGraph.get_next_node: pure lookup in the edge map. -/
def WorkflowGraph.get_next_node (g : WorkflowGraph) (current_node : String) : Option String :=
  lookupAssoc g.edges current_node

/-- The errors `run` can raise: ValueError for a missing entry node,
KeyError for a failed node lookup with a hashable key, TypeError for an
unhashable key (a list), and the re-raised failure of a transform. -/
inductive RunError where
  | valueError : String → RunError
  | keyError : Value → RunError
  | typeError : String → RunError
  | nodeFailure : String → RunError
deriving DecidableEq, Repr

/-- Looking up `self.nodes[v]` with a dynamic key value: only a string
that is a node name succeeds. -/
def lookupNodeV (g : WorkflowGraph) : Value → Option (String × Transform)
  | Value.vstr s => Option.map (fun f => (s, f)) (lookupAssoc g.nodes s)
  | _ => Option.none

/-- The error `self.nodes[v]` raises when the lookup fails: TypeError for
an unhashable key (a list), KeyError for any hashable absent key. -/
def nodeLookupErr : Value → RunError
  | Value.vref _ => RunError.typeError "unhashable type: 'list'"
  | v => RunError.keyError v

/-- WorkflowGraph._evaluate_conditional: if the state carries `route_to`,
pop it, then test membership of the popped value in the node dictionary:
a value naming an existing node is returned, any other hashable value
yields None, and an unhashable value (a list) raises TypeError from the
membership test, after the pop already happened.  The second component is
the state as the resolver leaves it (also at the moment a TypeError
propagates); with no `route_to` the state is untouched. -/
def WorkflowGraph.evaluate_conditional (g : WorkflowGraph) (conditional_node : String)
    (st : StateDict) : Except RunError (Option Value) × StateDict :=
  match lookupAssoc st "route_to" with
  | Option.some v =>
    ((match v with
      | Value.vstr s =>
        Except.ok (if (lookupAssoc g.nodes s).isSome then Option.some v else Option.none)
      | Value.vref _ => Except.error (RunError.typeError "unhashable type: 'list'")
      | _ => Except.ok Option.none),
     popAssoc st "route_to")
  | Option.none => (Except.ok Option.none, st)

/-- One log-entry dictionary of the execution log, with its final field
values (the Python code mutates the appended dict in place; only the final
contents are ever observable). -/
structure LogEntry where
  node : String
  status : String
  iteration : Nat
  state_snapshot : Option StateDict
  error : Option String
deriving DecidableEq, Repr

/-- Everything observable at the end of a run: the returned pair (or the
raised error), the execution log at that moment, the heap, the per-node
statuses left on the graph, and the final iteration counter. -/
structure RunOutcome where
  result : Except RunError StateDict
  log : List LogEntry
  heap : Heap
  statuses : StatusMap
  iterations : Nat
deriving Repr

/-- The `.startswith("if_")` test of line 121: the first three characters
are `i`, `f`, `_`. -/
def startsWithIf (s : String) : Bool :=
  match s.data with
  | 'i' :: 'f' :: '_' :: _ => true
  | _ => false

/-- Lines 118-127 of `engine.py`: compute the next node after `name`
executed, from the static edge map, routing through
`_evaluate_conditional` when the static successor starts with `if_`.
Returns the next current-node value (or the TypeError the resolver can
raise) and the (possibly route_to-popped) state. -/
def routeNext (g : WorkflowGraph) (name : String) (st : StateDict) :
    Except RunError (Option Value) × StateDict :=
  match WorkflowGraph.get_next_node g name with
  | Option.some n =>
    if startsWithIf n then WorkflowGraph.evaluate_conditional g n st
    else (Except.ok (Option.some (Value.vstr n)), st)
  | Option.none => (Except.ok Option.none, st)

/-- The while loop of WorkflowGraph.run (lines 86-139).  `fuel` is the
number of loop iterations still allowed (`max_iterations - iteration`);
`it` is the iteration counter so far.  The dead visited-check of lines
90-93 is inert; the visited set is still tracked for fidelity. -/
def runLoop (g : WorkflowGraph) :
    Nat → Nat → Option Value → StateDict → Heap → List LogEntry → StatusMap → List Value →
    RunOutcome
  | 0, it, _, st, h, log, sts, _ =>
    ⟨Except.ok st, log, h, sts, it⟩
  | Nat.succ fuel, it, cur, st, h, log, sts, vis =>
    match cur with
    | Option.none => ⟨Except.ok st, log, h, sts, it⟩
    | Option.some cv =>
      if truthy h cv then
        match lookupNodeV g cv with
        | Option.none => ⟨Except.error (nodeLookupErr cv), log, h, sts, it + 1⟩
        | Option.some (name, f) =>
          match nodeExecute f st h with
          | (Except.error msg, h1, stE) =>
            ⟨Except.error (RunError.nodeFailure msg),
             log ++ [⟨name, "failed", it + 1, Option.none, Option.some msg⟩,
                     ⟨name, "failed", it + 1, Option.none, Option.some msg⟩],
             h1,
             setAssoc (setAssoc sts name NodeStatus.running) name stE,
             it + 1⟩
          | (Except.ok st1, h1, stE) =>
            match (routeNext g name st1).1 with
            | Except.error e =>
              ⟨Except.error e,
               log ++ [⟨name, "completed", it + 1, Option.some st1, Option.none⟩],
               h1,
               setAssoc (setAssoc sts name NodeStatus.running) name stE,
               it + 1⟩
            | Except.ok cur2 =>
              if truthy h1 ((lookupAssoc (routeNext g name st1).2 "loop_continue").getD
                  (Value.vbool false)) then
                runLoop g fuel (it + 1)
                  (Option.some ((lookupAssoc (routeNext g name st1).2 "loop_node").getD
                    (Value.vstr (g.entry_node.getD ""))))
                  (setAssoc (routeNext g name st1).2 "loop_continue" (Value.vbool false))
                  h1
                  (log ++ [⟨name, "completed", it + 1, Option.some st1, Option.none⟩])
                  (setAssoc (setAssoc sts name NodeStatus.running) name stE)
                  (if cv ∈ vis then vis else cv :: vis)
              else
                match cur2 with
                | Option.none =>
                  ⟨Except.ok (routeNext g name st1).2,
                   log ++ [⟨name, "completed", it + 1, Option.some st1, Option.none⟩],
                   h1,
                   setAssoc (setAssoc sts name NodeStatus.running) name stE,
                   it + 1⟩
                | Option.some nv =>
                  runLoop g fuel (it + 1) (Option.some nv) (routeNext g name st1).2 h1
                    (log ++ [⟨name, "completed", it + 1, Option.some st1, Option.none⟩])
                    (setAssoc (setAssoc sts name NodeStatus.running) name stE)
                    (if cv ∈ vis then vis else cv :: vis)
      else ⟨Except.ok st, log, h, sts, it⟩

/-- WorkflowGraph.run: raises ValueError when no entry node is defined,
otherwise copies the initial state (a shallow copy: the top-level map is
duplicated, heap references are shared) and drives the loop with the
100-iteration ceiling. -/
def WorkflowGraph.run (g : WorkflowGraph) (sts : StatusMap) (initial_state : StateDict)
    (h : Heap) : RunOutcome :=
  match g.entry_node with
  | Option.none => ⟨Except.error (RunError.valueError "No entry node defined"), [], h, sts, 0⟩
  | Option.some e => runLoop g 100 0 (Option.some (Value.vstr e)) initial_state h [] sts []

/-!
Basic dictionary lemmas.
-/

theorem lookupAssoc_setAssoc_self {α : Type} (l : List (String × α)) (k : String) (v : α) :
    lookupAssoc (setAssoc l k v) k = Option.some v := by
  induction l with
  | nil => simp [setAssoc, lookupAssoc]
  | cons p rest ih =>
    obtain ⟨k1, w⟩ := p
    by_cases hk : k1 = k
    · simp [setAssoc, hk, lookupAssoc]
    · simp [setAssoc, hk, lookupAssoc, ih]

theorem lookupAssoc_popAssoc_self {α : Type} (l : List (String × α)) (k : String) :
    lookupAssoc (popAssoc l k) k = Option.none := by
  induction l with
  | nil => simp [popAssoc, lookupAssoc]
  | cons p rest ih =>
    obtain ⟨k1, w⟩ := p
    by_cases hk : k1 = k
    · simpa [popAssoc, hk] using ih
    · simpa [popAssoc, hk, lookupAssoc] using ih

theorem lookupAssoc_mem {α : Type} (l : List (String × α)) (k : String) (v : α)
    (h : lookupAssoc l k = Option.some v) : (k, v) ∈ l := by
  induction l with
  | nil => simp [lookupAssoc] at h
  | cons p rest ih =>
    obtain ⟨k1, w⟩ := p
    by_cases hk : k1 = k
    · subst hk
      simp [lookupAssoc] at h
      simp [h]
    · simp [lookupAssoc, hk] at h
      exact List.mem_cons_of_mem _ (ih h)

/-!
One-step unfolding lemmas for the run loop, one per control-flow branch
of the Python while body.
-/

theorem runLoop_zero (g : WorkflowGraph) (it : Nat) (cur : Option Value) (st : StateDict)
    (h : Heap) (log : List LogEntry) (sts : StatusMap) (vis : List Value) :
    runLoop g 0 it cur st h log sts vis = ⟨Except.ok st, log, h, sts, it⟩ := rfl

theorem runLoop_none (g : WorkflowGraph) (fuel it : Nat) (st : StateDict)
    (h : Heap) (log : List LogEntry) (sts : StatusMap) (vis : List Value) :
    runLoop g (fuel + 1) it Option.none st h log sts vis = ⟨Except.ok st, log, h, sts, it⟩ := rfl

theorem runLoop_falsy (g : WorkflowGraph) (fuel it : Nat) (cv : Value) (st : StateDict)
    (h : Heap) (log : List LogEntry) (sts : StatusMap) (vis : List Value)
    (ht : truthy h cv = false) :
    runLoop g (fuel + 1) it (Option.some cv) st h log sts vis =
      ⟨Except.ok st, log, h, sts, it⟩ := by
  simp [runLoop, ht]

theorem runLoop_keyError (g : WorkflowGraph) (fuel it : Nat) (cv : Value) (st : StateDict)
    (h : Heap) (log : List LogEntry) (sts : StatusMap) (vis : List Value)
    (ht : truthy h cv = true) (hn : lookupNodeV g cv = Option.none) :
    runLoop g (fuel + 1) it (Option.some cv) st h log sts vis =
      ⟨Except.error (nodeLookupErr cv), log, h, sts, it + 1⟩ := by
  simp [runLoop, ht, hn]

theorem runLoop_fail (g : WorkflowGraph) (fuel it : Nat) (cv : Value) (st : StateDict)
    (h : Heap) (log : List LogEntry) (sts : StatusMap) (vis : List Value)
    (name : String) (f : Transform) (msg : String) (h1 : Heap)
    (ht : truthy h cv = true) (hn : lookupNodeV g cv = Option.some (name, f))
    (hf : f st h = (Except.error msg, h1)) :
    runLoop g (fuel + 1) it (Option.some cv) st h log sts vis =
      ⟨Except.error (RunError.nodeFailure msg),
       log ++ [⟨name, "failed", it + 1, Option.none, Option.some msg⟩,
               ⟨name, "failed", it + 1, Option.none, Option.some msg⟩],
       h1,
       setAssoc (setAssoc sts name NodeStatus.running) name NodeStatus.failed,
       it + 1⟩ := by
  simp [runLoop, ht, hn, nodeExecute, hf]

theorem runLoop_route_error (g : WorkflowGraph) (fuel it : Nat) (cv : Value) (st : StateDict)
    (h : Heap) (log : List LogEntry) (sts : StatusMap) (vis : List Value)
    (name : String) (f : Transform) (st1 : StateDict) (h1 : Heap) (e : RunError)
    (ht : truthy h cv = true) (hn : lookupNodeV g cv = Option.some (name, f))
    (hf : f st h = (Except.ok st1, h1))
    (hr : (routeNext g name st1).1 = Except.error e) :
    runLoop g (fuel + 1) it (Option.some cv) st h log sts vis =
      ⟨Except.error e,
       log ++ [⟨name, "completed", it + 1, Option.some st1, Option.none⟩],
       h1, setAssoc (setAssoc sts name NodeStatus.running) name NodeStatus.completed,
       it + 1⟩ := by
  simp [runLoop, ht, hn, nodeExecute, hf, hr]

theorem runLoop_loop_step (g : WorkflowGraph) (fuel it : Nat) (cv : Value) (st : StateDict)
    (h : Heap) (log : List LogEntry) (sts : StatusMap) (vis : List Value)
    (name : String) (f : Transform) (st1 : StateDict) (h1 : Heap) (cur2 : Option Value)
    (ht : truthy h cv = true) (hn : lookupNodeV g cv = Option.some (name, f))
    (hf : f st h = (Except.ok st1, h1))
    (hrok : (routeNext g name st1).1 = Except.ok cur2)
    (hflag : truthy h1 ((lookupAssoc (routeNext g name st1).2 "loop_continue").getD
      (Value.vbool false)) = true) :
    runLoop g (fuel + 1) it (Option.some cv) st h log sts vis =
      runLoop g fuel (it + 1)
        (Option.some ((lookupAssoc (routeNext g name st1).2 "loop_node").getD
          (Value.vstr (g.entry_node.getD ""))))
        (setAssoc (routeNext g name st1).2 "loop_continue" (Value.vbool false))
        h1
        (log ++ [⟨name, "completed", it + 1, Option.some st1, Option.none⟩])
        (setAssoc (setAssoc sts name NodeStatus.running) name NodeStatus.completed)
        (if cv ∈ vis then vis else cv :: vis) := by
  simp [runLoop, ht, hn, nodeExecute, hf, hrok, hflag]

theorem runLoop_cont_none (g : WorkflowGraph) (fuel it : Nat) (cv : Value) (st : StateDict)
    (h : Heap) (log : List LogEntry) (sts : StatusMap) (vis : List Value)
    (name : String) (f : Transform) (st1 : StateDict) (h1 : Heap)
    (ht : truthy h cv = true) (hn : lookupNodeV g cv = Option.some (name, f))
    (hf : f st h = (Except.ok st1, h1))
    (hflag : truthy h1 ((lookupAssoc (routeNext g name st1).2 "loop_continue").getD
      (Value.vbool false)) = false)
    (hr : (routeNext g name st1).1 = Except.ok Option.none) :
    runLoop g (fuel + 1) it (Option.some cv) st h log sts vis =
      ⟨Except.ok (routeNext g name st1).2,
       log ++ [⟨name, "completed", it + 1, Option.some st1, Option.none⟩],
       h1,
       setAssoc (setAssoc sts name NodeStatus.running) name NodeStatus.completed,
       it + 1⟩ := by
  simp [runLoop, ht, hn, nodeExecute, hf, hflag, hr]

theorem runLoop_cont_some (g : WorkflowGraph) (fuel it : Nat) (cv : Value) (st : StateDict)
    (h : Heap) (log : List LogEntry) (sts : StatusMap) (vis : List Value)
    (name : String) (f : Transform) (st1 : StateDict) (h1 : Heap) (nv : Value)
    (ht : truthy h cv = true) (hn : lookupNodeV g cv = Option.some (name, f))
    (hf : f st h = (Except.ok st1, h1))
    (hflag : truthy h1 ((lookupAssoc (routeNext g name st1).2 "loop_continue").getD
      (Value.vbool false)) = false)
    (hr : (routeNext g name st1).1 = Except.ok (Option.some nv)) :
    runLoop g (fuel + 1) it (Option.some cv) st h log sts vis =
      runLoop g fuel (it + 1) (Option.some nv) (routeNext g name st1).2 h1
        (log ++ [⟨name, "completed", it + 1, Option.some st1, Option.none⟩])
        (setAssoc (setAssoc sts name NodeStatus.running) name NodeStatus.completed)
        (if cv ∈ vis then vis else cv :: vis) := by
  simp [runLoop, ht, hn, nodeExecute, hf, hflag, hr]

/-- The status-free view of an outcome: everything except the per-node
statuses. -/
def runView (o : RunOutcome) : Except RunError StateDict × List LogEntry × Heap × Nat :=
  (o.result, o.log, o.heap, o.iterations)

/-- Unpacking a successful dynamic node lookup. -/
theorem lookupNodeV_eq (g : WorkflowGraph) (cv : Value) (name : String) (f : Transform)
    (h : lookupNodeV g cv = Option.some (name, f)) :
    cv = Value.vstr name ∧ lookupAssoc g.nodes name = Option.some f := by
  cases cv with
  | vstr s =>
    simp only [lookupNodeV, Option.map_eq_some'] at h
    obtain ⟨a, ha, hpair⟩ := h
    obtain ⟨h1, h2⟩ := Prod.mk.injEq .. ▸ hpair
    subst h1
    subst h2
    exact ⟨rfl, ha⟩
  | vint n => simp [lookupNodeV] at h
  | vbool b => simp [lookupNodeV] at h
  | vnone => simp [lookupNodeV] at h
  | vref r => simp [lookupNodeV] at h

/-- The run loop never reads the status map: its result, log, heap and
iteration counter are the same for any two initial status maps. -/
theorem runLoop_status_free (g : WorkflowGraph) : ∀ (fuel it : Nat) (cur : Option Value)
    (st : StateDict) (h : Heap) (log : List LogEntry) (vis : List Value)
    (sts1 sts2 : StatusMap),
    runView (runLoop g fuel it cur st h log sts1 vis) =
      runView (runLoop g fuel it cur st h log sts2 vis) := by
  intro fuel
  induction fuel with
  | zero => intros; rfl
  | succ n ih =>
    intro it cur st h log vis sts1 sts2
    cases cur with
    | none => rfl
    | some cv =>
      cases ht : truthy h cv with
      | false =>
        rw [runLoop_falsy g n it cv st h log sts1 vis ht,
            runLoop_falsy g n it cv st h log sts2 vis ht]
        rfl
      | true =>
        cases hn : lookupNodeV g cv with
        | none =>
          rw [runLoop_keyError g n it cv st h log sts1 vis ht hn,
              runLoop_keyError g n it cv st h log sts2 vis ht hn]
          rfl
        | some p =>
          obtain ⟨name, f⟩ := p
          rcases hf : f st h with ⟨res, h1⟩
          cases res with
          | error msg =>
            rw [runLoop_fail g n it cv st h log sts1 vis name f msg h1 ht hn hf,
                runLoop_fail g n it cv st h log sts2 vis name f msg h1 ht hn hf]
            rfl
          | ok st1 =>
            cases hroute : (routeNext g name st1).1 with
            | error e =>
              rw [runLoop_route_error g n it cv st h log sts1 vis name f st1 h1 e ht hn hf hroute,
                  runLoop_route_error g n it cv st h log sts2 vis name f st1 h1 e ht hn hf hroute]
              rfl
            | ok cur2 =>
              cases hflag : truthy h1 ((lookupAssoc (routeNext g name st1).2
                  "loop_continue").getD (Value.vbool false)) with
              | true =>
                rw [runLoop_loop_step g n it cv st h log sts1 vis name f st1 h1 cur2
                      ht hn hf hroute hflag,
                    runLoop_loop_step g n it cv st h log sts2 vis name f st1 h1 cur2
                      ht hn hf hroute hflag]
                exact ih _ _ _ _ _ _ _ _
              | false =>
                cases cur2 with
                | none =>
                  rw [runLoop_cont_none g n it cv st h log sts1 vis name f st1 h1
                        ht hn hf hflag hroute,
                      runLoop_cont_none g n it cv st h log sts2 vis name f st1 h1
                        ht hn hf hflag hroute]
                  rfl
                | some nv =>
                  rw [runLoop_cont_some g n it cv st h log sts1 vis name f st1 h1 nv
                        ht hn hf hflag hroute,
                      runLoop_cont_some g n it cv st h log sts2 vis name f st1 h1 nv
                        ht hn hf hflag hroute]
                  exact ih _ _ _ _ _ _ _ _

/-- The loop adds at most `fuel` iterations, and on a normal return the
log grew by exactly the number of iterations performed. -/
theorem runLoop_iter_log (g : WorkflowGraph) : ∀ (fuel it : Nat) (cur : Option Value)
    (st : StateDict) (h : Heap) (log : List LogEntry) (sts : StatusMap) (vis : List Value),
    ∃ k, k ≤ fuel ∧ (runLoop g fuel it cur st h log sts vis).iterations = it + k ∧
      (∀ stf, (runLoop g fuel it cur st h log sts vis).result = Except.ok stf →
        (runLoop g fuel it cur st h log sts vis).log.length = log.length + k) := by
  intro fuel
  induction fuel with
  | zero => intro it cur st h log sts vis; exact ⟨0, Nat.le_refl 0, rfl, fun _ _ => rfl⟩
  | succ n ih =>
    intro it cur st h log sts vis
    cases cur with
    | none => exact ⟨0, Nat.zero_le _, rfl, fun _ _ => rfl⟩
    | some cv =>
      cases ht : truthy h cv with
      | false =>
        rw [runLoop_falsy g n it cv st h log sts vis ht]
        exact ⟨0, Nat.zero_le _, rfl, fun _ _ => rfl⟩
      | true =>
        cases hn : lookupNodeV g cv with
        | none =>
          rw [runLoop_keyError g n it cv st h log sts vis ht hn]
          exact ⟨1, by omega, rfl, fun stf hc => by simp at hc⟩
        | some p =>
          obtain ⟨name, f⟩ := p
          rcases hf : f st h with ⟨res, h1⟩
          cases res with
          | error msg =>
            rw [runLoop_fail g n it cv st h log sts vis name f msg h1 ht hn hf]
            exact ⟨1, by omega, rfl, fun stf hc => by simp at hc⟩
          | ok st1 =>
            cases hroute : (routeNext g name st1).1 with
            | error e =>
              rw [runLoop_route_error g n it cv st h log sts vis name f st1 h1 e ht hn hf hroute]
              exact ⟨1, by omega, rfl, fun stf hc => by simp at hc⟩
            | ok cur2 =>
              cases hflag : truthy h1 ((lookupAssoc (routeNext g name st1).2
                  "loop_continue").getD (Value.vbool false)) with
              | true =>
                rw [runLoop_loop_step g n it cv st h log sts vis name f st1 h1 cur2
                      ht hn hf hroute hflag]
                obtain ⟨k, hk, hit, hlog⟩ := ih (it + 1) _ _ h1 _ _ _
                refine ⟨k + 1, by omega, by rw [hit]; omega, fun stf hc => ?_⟩
                have := hlog stf hc
                simp only [List.length_append, List.length_cons, List.length_nil] at this
                omega
              | false =>
                cases cur2 with
                | none =>
                  rw [runLoop_cont_none g n it cv st h log sts vis name f st1 h1
                        ht hn hf hflag hroute]
                  refine ⟨1, by omega, rfl, fun stf hc => ?_⟩
                  simp
                | some nv =>
                  rw [runLoop_cont_some g n it cv st h log sts vis name f st1 h1 nv
                        ht hn hf hflag hroute]
                  obtain ⟨k, hk, hit, hlog⟩ := ih (it + 1) _ _ h1 _ _ _
                  refine ⟨k + 1, by omega, by rw [hit]; omega, fun stf hc => ?_⟩
                  have := hlog stf hc
                  simp only [List.length_append, List.length_cons, List.length_nil] at this
                  omega

/-- Entries already in the log are never modified: the loop only appends. -/
theorem runLoop_log_extends (g : WorkflowGraph) : ∀ (fuel it : Nat) (cur : Option Value)
    (st : StateDict) (h : Heap) (log : List LogEntry) (sts : StatusMap) (vis : List Value),
    ∃ tail, (runLoop g fuel it cur st h log sts vis).log = log ++ tail := by
  intro fuel
  induction fuel with
  | zero => intro it cur st h log sts vis; exact ⟨[], by simp [runLoop_zero]⟩
  | succ n ih =>
    intro it cur st h log sts vis
    cases cur with
    | none => exact ⟨[], by simp [runLoop_none]⟩
    | some cv =>
      cases ht : truthy h cv with
      | false => exact ⟨[], by simp [runLoop_falsy g n it cv st h log sts vis ht]⟩
      | true =>
        cases hn : lookupNodeV g cv with
        | none => exact ⟨[], by simp [runLoop_keyError g n it cv st h log sts vis ht hn]⟩
        | some p =>
          obtain ⟨name, f⟩ := p
          rcases hf : f st h with ⟨res, h1⟩
          cases res with
          | error msg =>
            refine ⟨[⟨name, "failed", it + 1, Option.none, Option.some msg⟩,
                     ⟨name, "failed", it + 1, Option.none, Option.some msg⟩], ?_⟩
            rw [runLoop_fail g n it cv st h log sts vis name f msg h1 ht hn hf]
          | ok st1 =>
            cases hroute : (routeNext g name st1).1 with
            | error e =>
              refine ⟨[⟨name, "completed", it + 1, Option.some st1, Option.none⟩], ?_⟩
              rw [runLoop_route_error g n it cv st h log sts vis name f st1 h1 e ht hn hf hroute]
            | ok cur2 =>
              cases hflag : truthy h1 ((lookupAssoc (routeNext g name st1).2
                  "loop_continue").getD (Value.vbool false)) with
              | true =>
                rw [runLoop_loop_step g n it cv st h log sts vis name f st1 h1 cur2
                      ht hn hf hroute hflag]
                obtain ⟨tail, htail⟩ := ih (it + 1) _ _ h1 _ _ _
                exact ⟨⟨name, "completed", it + 1, Option.some st1, Option.none⟩ :: tail,
                  by rw [htail]; simp⟩
              | false =>
                cases cur2 with
                | none =>
                  refine ⟨[⟨name, "completed", it + 1, Option.some st1, Option.none⟩], ?_⟩
                  rw [runLoop_cont_none g n it cv st h log sts vis name f st1 h1
                        ht hn hf hflag hroute]
                | some nv =>
                  rw [runLoop_cont_some g n it cv st h log sts vis name f st1 h1 nv
                        ht hn hf hflag hroute]
                  obtain ⟨tail, htail⟩ := ih (it + 1) _ _ h1 _ _ _
                  exact ⟨⟨name, "completed", it + 1, Option.some st1, Option.none⟩ :: tail,
                    by rw [htail]; simp⟩

/-- A transform preserves the heap when it never overwrites an existing
heap cell (it may allocate new cells). -/
def heapPreserves (f : Transform) : Prop :=
  ∀ (st : StateDict) (h : Heap) (r : Nat) (v : List Value),
    h[r]? = Option.some v → ((f st h).2)[r]? = Option.some v

/-- When every transform of the graph preserves existing heap cells, the
whole loop preserves them: any cell that exists before the run has the
same contents afterwards. -/
theorem runLoop_heap_stable (g : WorkflowGraph)
    (hg : ∀ name f, lookupAssoc g.nodes name = Option.some f → heapPreserves f) :
    ∀ (fuel it : Nat) (cur : Option Value) (st : StateDict) (h : Heap)
    (log : List LogEntry) (sts : StatusMap) (vis : List Value) (r : Nat) (v : List Value),
    h[r]? = Option.some v →
      ((runLoop g fuel it cur st h log sts vis).heap)[r]? = Option.some v := by
  intro fuel
  induction fuel with
  | zero => intro it cur st h log sts vis r v hr; exact hr
  | succ n ih =>
    intro it cur st h log sts vis r v hr
    cases cur with
    | none => exact hr
    | some cv =>
      cases ht : truthy h cv with
      | false => rw [runLoop_falsy g n it cv st h log sts vis ht]; exact hr
      | true =>
        cases hn : lookupNodeV g cv with
        | none => rw [runLoop_keyError g n it cv st h log sts vis ht hn]; exact hr
        | some p =>
          obtain ⟨name, f⟩ := p
          obtain ⟨hcv, hlook⟩ := lookupNodeV_eq g cv name f hn
          have hpres : heapPreserves f := hg name f hlook
          rcases hf : f st h with ⟨res, h1⟩
          have hr1 : h1[r]? = Option.some v := by
            have := hpres st h r v hr
            rw [hf] at this
            exact this
          cases res with
          | error msg =>
            rw [runLoop_fail g n it cv st h log sts vis name f msg h1 ht hn hf]
            exact hr1
          | ok st1 =>
            cases hroute : (routeNext g name st1).1 with
            | error e =>
              rw [runLoop_route_error g n it cv st h log sts vis name f st1 h1 e ht hn hf hroute]
              exact hr1
            | ok cur2 =>
              cases hflag : truthy h1 ((lookupAssoc (routeNext g name st1).2
                  "loop_continue").getD (Value.vbool false)) with
              | true =>
                rw [runLoop_loop_step g n it cv st h log sts vis name f st1 h1 cur2
                      ht hn hf hroute hflag]
                exact ih _ _ _ h1 _ _ _ r v hr1
              | false =>
                cases cur2 with
                | none =>
                  rw [runLoop_cont_none g n it cv st h log sts vis name f st1 h1
                        ht hn hf hflag hroute]
                  exact hr1
                | some nv =>
                  rw [runLoop_cont_some g n it cv st h log sts vis name f st1 h1 nv
                        ht hn hf hflag hroute]
                  exact ih _ _ _ h1 _ _ _ r v hr1

/-!
Linear chains: machinery for the linear-workflow property.
-/

/-- Consecutive iteration numbers `s, s+1, ..., s+n-1`. -/
def iterRange : Nat → Nat → List Nat
  | _, 0 => []
  | s, Nat.succ n => s :: iterRange (s + 1) n

theorem iterRange_succ (s n : Nat) : iterRange s (n + 1) = s :: iterRange (s + 1) n := rfl

/-- The current-node value at the head of a remaining chain. -/
def curOf : List String → Option Value
  | [] => Option.none
  | n :: _ => Option.some (Value.vstr n)

/-- A well-behaved chain node: nonempty name, present in the node map,
and its transform always succeeds and never leaves a truthy
`loop_continue` flag. -/
def goodNode (g : WorkflowGraph) (n : String) : Prop :=
  n ≠ "" ∧ ∃ f, lookupAssoc g.nodes n = Option.some f ∧
    ∀ (st : StateDict) (h : Heap), ∃ st1 h1, f st h = (Except.ok st1, h1) ∧
      truthy h1 ((lookupAssoc st1 "loop_continue").getD (Value.vbool false)) = false

/-- The suffix of a linear chain starting at the head of `l`: each node is
good, each edge goes to the next name in the list (never an `if_` marker),
and the last node has no outgoing edge. -/
def chainFrom (g : WorkflowGraph) : List String → Prop
  | [] => True
  | n :: rest =>
    goodNode g n ∧
    (match rest with
     | [] => WorkflowGraph.get_next_node g n = Option.none
     | m :: _ => WorkflowGraph.get_next_node g n = Option.some m ∧ startsWithIf m = false) ∧
    chainFrom g rest

/-- Running the loop down a linear chain that fits in the remaining fuel:
one completed log entry per chain node, in chain order, with consecutive
iteration numbers. -/
theorem chain_run_ok (g : WorkflowGraph) : ∀ (l : List String) (fuel it : Nat) (st : StateDict)
    (h : Heap) (log : List LogEntry) (sts : StatusMap) (vis : List Value),
    chainFrom g l → l.length ≤ fuel →
    ∃ entries stf hfin stsf,
      runLoop g fuel it (curOf l) st h log sts vis =
        ⟨Except.ok stf, log ++ entries, hfin, stsf, it + l.length⟩ ∧
      entries.map LogEntry.node = l ∧
      entries.map LogEntry.status = l.map (fun _ => "completed") ∧
      entries.map LogEntry.iteration = iterRange (it + 1) l.length := by
  intro l
  induction l with
  | nil =>
    intro fuel it st h log sts vis hchain hlen
    refine ⟨[], st, h, sts, ?_, rfl, rfl, rfl⟩
    cases fuel with
    | zero => simp [runLoop_zero, curOf]
    | succ n => simp [runLoop_none, curOf]
  | cons n1 rest ih =>
    intro fuel it st h log sts vis hchain hlen
    cases fuel with
    | zero => simp at hlen
    | succ fuel1 =>
      obtain ⟨hgood, hedge, hrest⟩ := hchain
      obtain ⟨hne, f, hlook, hprop⟩ := hgood
      have ht : truthy h (Value.vstr n1) = true := by simp [truthy, hne]
      have hn : lookupNodeV g (Value.vstr n1) = Option.some (n1, f) := by
        simp [lookupNodeV, hlook]
      obtain ⟨st1, h1, hf1, hflag1⟩ := hprop st h
      cases rest with
      | nil =>
        have hroute : routeNext g n1 st1 = (Except.ok Option.none, st1) := by
          simp [routeNext, hedge]
        have hflag : truthy h1 ((lookupAssoc (routeNext g n1 st1).2 "loop_continue").getD
            (Value.vbool false)) = false := by rw [hroute]; exact hflag1
        have hr : (routeNext g n1 st1).1 = Except.ok Option.none := by rw [hroute]
        refine ⟨[⟨n1, "completed", it + 1, Option.some st1, Option.none⟩], st1, h1,
          setAssoc (setAssoc sts n1 NodeStatus.running) n1 NodeStatus.completed,
          ?_, rfl, rfl, rfl⟩
        rw [show curOf [n1] = Option.some (Value.vstr n1) from rfl,
            runLoop_cont_none g fuel1 it (Value.vstr n1) st h log sts vis n1 f st1 h1
              ht hn hf1 hflag hr]
        simp [hroute]
      | cons m rest2 =>
        obtain ⟨hedgeM, hpf⟩ := hedge
        have hroute : routeNext g n1 st1 = (Except.ok (Option.some (Value.vstr m)), st1) := by
          simp [routeNext, hedgeM, hpf]
        have hflag : truthy h1 ((lookupAssoc (routeNext g n1 st1).2 "loop_continue").getD
            (Value.vbool false)) = false := by rw [hroute]; exact hflag1
        have hr : (routeNext g n1 st1).1 = Except.ok (Option.some (Value.vstr m)) := by
          rw [hroute]
        have hlen1 : (m :: rest2).length ≤ fuel1 := by
          simp only [List.length_cons] at hlen ⊢
          omega
        obtain ⟨entries1, stf, hfH, stsf, heq, hmap1, hmap2, hmap3⟩ :=
          ih fuel1 (it + 1) st1 h1
            (log ++ [⟨n1, "completed", it + 1, Option.some st1, Option.none⟩])
            (setAssoc (setAssoc sts n1 NodeStatus.running) n1 NodeStatus.completed)
            (if Value.vstr n1 ∈ vis then vis else Value.vstr n1 :: vis) hrest hlen1
        refine ⟨⟨n1, "completed", it + 1, Option.some st1, Option.none⟩ :: entries1,
          stf, hfH, stsf, ?_, ?_, ?_, ?_⟩
        · rw [show curOf (n1 :: m :: rest2) = Option.some (Value.vstr n1) from rfl,
              runLoop_cont_some g fuel1 it (Value.vstr n1) st h log sts vis n1 f st1 h1
                (Value.vstr m) ht hn hf1 hflag hr,
              show (routeNext g n1 st1).2 = st1 from by rw [hroute]]
          rw [show curOf (m :: rest2) = Option.some (Value.vstr m) from rfl] at heq
          rw [heq, List.append_assoc, List.singleton_append]
          congr 1
          simp only [List.length_cons]
          omega
        · simp [hmap1]
        · simp [hmap2]
        · simp only [List.length_cons, iterRange_succ, List.map_cons]
          rw [hmap3]
          simp [iterRange_succ]

/-- Running the loop down a linear chain longer than the remaining fuel:
the run still returns normally, having appended exactly `fuel` entries. -/
theorem chain_run_trunc (g : WorkflowGraph) : ∀ (fuel : Nat) (l : List String) (it : Nat)
    (st : StateDict) (h : Heap) (log : List LogEntry) (sts : StatusMap) (vis : List Value),
    chainFrom g l → fuel ≤ l.length →
    ∃ entries stf hfin stsf,
      runLoop g fuel it (curOf l) st h log sts vis =
        ⟨Except.ok stf, log ++ entries, hfin, stsf, it + fuel⟩ ∧
      entries.length = fuel := by
  intro fuel
  induction fuel with
  | zero =>
    intro l it st h log sts vis hchain hlen
    exact ⟨[], st, h, sts, by simp [runLoop_zero], rfl⟩
  | succ n ih =>
    intro l it st h log sts vis hchain hlen
    cases l with
    | nil => simp at hlen
    | cons n1 rest =>
      obtain ⟨hgood, hedge, hrest⟩ := hchain
      obtain ⟨hne, f, hlook, hprop⟩ := hgood
      have ht : truthy h (Value.vstr n1) = true := by simp [truthy, hne]
      have hn : lookupNodeV g (Value.vstr n1) = Option.some (n1, f) := by
        simp [lookupNodeV, hlook]
      obtain ⟨st1, h1, hf1, hflag1⟩ := hprop st h
      cases rest with
      | nil =>
        have hn0 : n = 0 := by simp at hlen; omega
        subst hn0
        have hroute : routeNext g n1 st1 = (Except.ok Option.none, st1) := by
          simp [routeNext, hedge]
        have hflag : truthy h1 ((lookupAssoc (routeNext g n1 st1).2 "loop_continue").getD
            (Value.vbool false)) = false := by rw [hroute]; exact hflag1
        have hr : (routeNext g n1 st1).1 = Except.ok Option.none := by rw [hroute]
        refine ⟨[⟨n1, "completed", it + 1, Option.some st1, Option.none⟩], st1, h1,
          setAssoc (setAssoc sts n1 NodeStatus.running) n1 NodeStatus.completed, ?_, rfl⟩
        rw [show curOf [n1] = Option.some (Value.vstr n1) from rfl,
            runLoop_cont_none g 0 it (Value.vstr n1) st h log sts vis n1 f st1 h1
              ht hn hf1 hflag hr]
        simp [hroute]
      | cons m rest2 =>
        obtain ⟨hedgeM, hpf⟩ := hedge
        have hroute : routeNext g n1 st1 = (Except.ok (Option.some (Value.vstr m)), st1) := by
          simp [routeNext, hedgeM, hpf]
        have hflag : truthy h1 ((lookupAssoc (routeNext g n1 st1).2 "loop_continue").getD
            (Value.vbool false)) = false := by rw [hroute]; exact hflag1
        have hr : (routeNext g n1 st1).1 = Except.ok (Option.some (Value.vstr m)) := by
          rw [hroute]
        have hlen1 : n ≤ (m :: rest2).length := by
          simp only [List.length_cons] at hlen ⊢
          omega
        obtain ⟨entries1, stf, hfH, stsf, heq, hlen2⟩ :=
          ih (m :: rest2) (it + 1) st1 h1
            (log ++ [⟨n1, "completed", it + 1, Option.some st1, Option.none⟩])
            (setAssoc (setAssoc sts n1 NodeStatus.running) n1 NodeStatus.completed)
            (if Value.vstr n1 ∈ vis then vis else Value.vstr n1 :: vis) hrest hlen1
        refine ⟨⟨n1, "completed", it + 1, Option.some st1, Option.none⟩ :: entries1,
          stf, hfH, stsf, ?_, by simp [hlen2]⟩
        rw [show curOf (n1 :: m :: rest2) = Option.some (Value.vstr n1) from rfl,
            runLoop_cont_some g n it (Value.vstr n1) st h log sts vis n1 f st1 h1
              (Value.vstr m) ht hn hf1 hflag hr,
            show (routeNext g n1 st1).2 = st1 from by rw [hroute]]
        rw [show curOf (m :: rest2) = Option.some (Value.vstr m) from rfl] at heq
        rw [heq, List.append_assoc, List.singleton_append]
        congr 1
        omega

/-!
Concrete linear chains used as instances: nodes named by decimal index,
each transform returning its input state with the loop flag cleared (so no
transform ever requests a loop).
-/

/-- Name of the i-th chain node. -/
def cName (i : Nat) : String := Nat.repr i

/-- A transform that keeps the state except for writing
`loop_continue = False` (it never raises and never requests a loop). -/
def clearT : Transform :=
  fun st h => (Except.ok (setAssoc st "loop_continue" (Value.vbool false)), h)

/-- The node names of an n-node chain. -/
def chainNames (n : Nat) : List String := (List.range n).map cName

/-- The n-node linear chain graph `0 → 1 → ... → n-1`, every node running
`clearT`, entry at node 0. -/
def chainGraph (n : Nat) : WorkflowGraph :=
  ⟨"chain", (chainNames n).map (fun s => (s, clearT)),
   (List.range (n - 1)).map (fun i => (cName i, cName (i + 1))),
   Option.some (cName 0)⟩

theorem lookupAssoc_map_const {α : Type} (names : List String) (c : α) (k : String) :
    lookupAssoc (names.map (fun s => (s, c))) k =
      if k ∈ names then Option.some c else Option.none := by
  induction names with
  | nil => simp [lookupAssoc]
  | cons n rest ih =>
    by_cases hk : n = k
    · subst hk
      simp [lookupAssoc]
    · simp only [List.map_cons, lookupAssoc, hk, if_false, ih, List.mem_cons]
      have : ¬ k = n := fun hc => hk hc.symm
      simp [this]

theorem clearT_ok : ∀ (st : StateDict) (h : Heap), ∃ st1 h1,
    clearT st h = (Except.ok st1, h1) ∧
    truthy h1 ((lookupAssoc st1 "loop_continue").getD (Value.vbool false)) = false := by
  intro st h
  refine ⟨setAssoc st "loop_continue" (Value.vbool false), h, rfl, ?_⟩
  rw [lookupAssoc_setAssoc_self]
  rfl

/-- The decidable part of `chainFrom`: node names nonempty and present,
edges linking consecutive names, no `if_` prefixes, last node edgeless. -/
def chainCheckB (g : WorkflowGraph) : List String → Bool
  | [] => true
  | n :: rest =>
    (decide (n ≠ "") && (lookupAssoc g.nodes n).isSome &&
     (match rest with
      | [] => (WorkflowGraph.get_next_node g n).isNone
      | m :: _ =>
        decide (WorkflowGraph.get_next_node g n = Option.some m) && !(startsWithIf m))) &&
    chainCheckB g rest

/-- Soundness of the check: together with a guarantee that every
transform in the graph succeeds and clears the loop flag, it establishes
`chainFrom`. -/
theorem chainFrom_of_check (g : WorkflowGraph)
    (hall : ∀ name f, lookupAssoc g.nodes name = Option.some f →
      ∀ (st : StateDict) (h : Heap), ∃ st1 h1, f st h = (Except.ok st1, h1) ∧
        truthy h1 ((lookupAssoc st1 "loop_continue").getD (Value.vbool false)) = false) :
    ∀ l, chainCheckB g l = true → chainFrom g l := by
  intro l
  induction l with
  | nil => intro hc; trivial
  | cons n rest ih =>
    intro hc
    simp only [chainCheckB, Bool.and_eq_true, decide_eq_true_eq] at hc
    obtain ⟨⟨⟨hne, hsome⟩, hmid⟩, hrest⟩ := hc
    obtain ⟨f, hf⟩ := Option.isSome_iff_exists.mp hsome
    refine ⟨⟨hne, f, hf, hall n f hf⟩, ?_, ih hrest⟩
    cases rest with
    | nil =>
      simp only [Option.isNone_iff_eq_none] at hmid
      exact hmid
    | cons m rest2 =>
      simp only [Bool.and_eq_true, decide_eq_true_eq, Bool.not_eq_true'] at hmid
      exact hmid

/-- Every transform stored in a chain graph is `clearT`. -/
theorem chainGraph_all_clearT (n : Nat) : ∀ name f,
    lookupAssoc (chainGraph n).nodes name = Option.some f → f = clearT := by
  intro name f hlook
  rw [show (chainGraph n).nodes = (chainNames n).map (fun s => (s, clearT)) from rfl,
      lookupAssoc_map_const] at hlook
  by_cases hm : name ∈ chainNames n
  · rw [if_pos hm] at hlook
    exact (Option.some.injEq .. ▸ hlook).symm
  · rw [if_neg hm] at hlook
    exact absurd hlook (by simp)

/-- A checked chain graph satisfies `chainFrom` on its name list. -/
theorem chainFrom_chainGraph (n : Nat)
    (hcheck : chainCheckB (chainGraph n) (chainNames n) = true) :
    chainFrom (chainGraph n) (chainNames n) := by
  apply chainFrom_of_check
  · intro name f hlook st h
    rw [chainGraph_all_clearT n name f hlook]
    exact clearT_ok st h
  · exact hcheck

/-!
Observing states through the heap, and the concrete graphs used as
instances for the claims.
-/

/-- What a value denotes to an observer: a primitive value, or the
current contents of the referenced mutable list (one level deep). -/
inductive Obs where
  | prim : Value → Obs
  | cell : List Value → Obs
  | dangling : Obs
deriving DecidableEq, Repr

/-- Observe one value through the heap. -/
def observe (h : Heap) : Value → Obs
  | Value.vref r =>
    match h[r]? with
    | Option.some l => Obs.cell l
    | Option.none => Obs.dangling
  | v => Obs.prim v

/-- Observe a whole state dictionary through the heap: the contents a
Python caller sees when reading the dictionary. -/
def observeState (h : Heap) (st : StateDict) : List (String × Obs) :=
  st.map (fun p => (p.1, observe h p.2))

/-- The membership test `v in self.nodes` on the node dictionary: only a
string can be a key. -/
def isNodeName (g : WorkflowGraph) : Value → Bool
  | Value.vstr s => (lookupAssoc g.nodes s).isSome
  | _ => false

/-- A transform that returns its input state unchanged. -/
def idT : Transform := fun st h => (Except.ok st, h)

/-- A transform that raises with message `boom`. -/
def failT : Transform := fun _ h => (Except.error "boom", h)

/-- A transform that appends 2 to the mutable list in heap cell 0
(modelling `state["xs"].append(2)`). -/
def mutT : Transform := fun st h => (Except.ok st, h.set 0 [Value.vint 1, Value.vint 2])

/-- A transform that requests a loop to the nonexistent node `ghost`. -/
def ghostLoopT : Transform := fun st h =>
  (Except.ok (setAssoc (setAssoc st "loop_continue" (Value.vbool true))
    "loop_node" (Value.vstr "ghost")), h)

/-- Scenario D graph: nodes `a` and `c`, a static edge from `a` to the
conditional marker `if_route`, entry `a`.  No node named `if_route`
exists. -/
def gD : WorkflowGraph :=
  ⟨"gD", [("a", idT), ("c", idT)], [("a", "if_route")], Option.some "a"⟩

/-- Scenario D graph before its edge is installed (both nodes, no edge). -/
def gDpre : WorkflowGraph :=
  ⟨"gD", [("a", idT), ("c", idT)], [], Option.some "a"⟩

/-- The initial state of scenario D: the routing override is already
present when the marker is reached. -/
def initD : StateDict := [("route_to", Value.vstr "c")]

/-- Scenario B graph: `a → b` where the transform of `a` raises. -/
def gB : WorkflowGraph :=
  ⟨"gB", [("a", failT), ("b", idT)], [("a", "b")], Option.some "a"⟩

/-- A single mutating node. -/
def g5 : WorkflowGraph := ⟨"g5", [("a", mutT)], [], Option.some "a"⟩

/-- A two-node chain whose second node mutates the shared list. -/
def g6 : WorkflowGraph :=
  ⟨"g6", [("a", idT), ("b", mutT)], [("a", "b")], Option.some "a"⟩

/-- A single node whose transform never touches the heap. -/
def gI : WorkflowGraph := ⟨"gI", [("a", idT)], [], Option.some "a"⟩

/-- Entry node set to a name that is not in the node set. -/
def gBad : WorkflowGraph := ⟨"gBad", [("a", idT)], [], Option.some "ghost"⟩

/-- A graph with no entry node. -/
def gNone : WorkflowGraph := ⟨"gNone", [], [], Option.none⟩

/-- A single node that requests a loop to a nonexistent node. -/
def gGhostLoop : WorkflowGraph :=
  ⟨"gGhostLoop", [("a", ghostLoopT)], [], Option.some "a"⟩

/-- An initial state holding a reference to heap cell 0. -/
def initRef : StateDict := [("xs", Value.vref 0)]

/-- A heap whose cell 0 holds the one-element list `[1]`. -/
def heapRef : Heap := [[Value.vint 1]]

/-- Scenario C transform: on the first visit (count 0) set the counter to
1 and request a loop back to `check`; on later visits clear the flag. -/
def checkT : Transform := fun st h =>
  match lookupAssoc st "count" with
  | Option.some (Value.vint n) =>
    if n = 0 then
      (Except.ok (setAssoc (setAssoc (setAssoc st "count" (Value.vint 1))
        "loop_continue" (Value.vbool true)) "loop_node" (Value.vstr "check")), h)
    else
      (Except.ok (setAssoc st "loop_continue" (Value.vbool false)), h)
  | _ => (Except.error "no count", h)

/-- Scenario C graph: the single node `check`. -/
def gC : WorkflowGraph := ⟨"gC", [("check", checkT)], [], Option.some "check"⟩

/-- Projection of a construction-API result onto its error message. -/
def exceptErr {α : Type} : Except String α → Option String
  | Except.error e => Option.some e
  | Except.ok _ => Option.none

instance {ε α : Type} [DecidableEq ε] [DecidableEq α] : DecidableEq (Except ε α) := fun a b =>
  match a, b with
  | Except.error e1, Except.error e2 =>
    if h : e1 = e2 then Decidable.isTrue (by rw [h])
    else Decidable.isFalse (by intro hc; cases hc; exact h rfl)
  | Except.ok a1, Except.ok a2 =>
    if h : a1 = a2 then Decidable.isTrue (by rw [h])
    else Decidable.isFalse (by intro hc; cases hc; exact h rfl)
  | Except.error e1, Except.ok a2 => Decidable.isFalse (by intro hc; cases hc)
  | Except.ok a1, Except.error e2 => Decidable.isFalse (by intro hc; cases hc)

/-- Claim C1: with nodes `a` and `c`, an edge from `a` to the marker
`if_route` (which is not a node), and `route_to = "c"` in the state when
the marker is reached, run goes from `a` directly to `c`; no node named
`if_route` is ever executed, and `add_edge` itself would have refused to
create this edge (it can only exist by direct assignment, as the example
workflows do). -/
theorem C1_conditional_marker_routing :
    (WorkflowGraph.run gD [] initD []).result = Except.ok [] ∧
    (WorkflowGraph.run gD [] initD []).log.map LogEntry.node = ["a", "c"] ∧
    "if_route" ∉ (WorkflowGraph.run gD [] initD []).log.map LogEntry.node ∧
    exceptErr (WorkflowGraph.add_edge gDpre "a" "if_route") =
      Option.some "Node 'if_route' does not exist" := by
  decide

/-- Claim C3: a run performs at most 100 node-execution attempts; on a
normal return the trace has exactly one entry per attempt (hence at most
100 entries); and exhausting the ceiling ends the loop with a normal
return of the accumulated state and trace, not an error. -/
theorem C3_iteration_ceiling :
    (∀ (g : WorkflowGraph) (sts : StatusMap) (st : StateDict) (h : Heap),
      (WorkflowGraph.run g sts st h).iterations ≤ 100 ∧
      (∀ stf, (WorkflowGraph.run g sts st h).result = Except.ok stf →
        (WorkflowGraph.run g sts st h).log.length = (WorkflowGraph.run g sts st h).iterations ∧
        (WorkflowGraph.run g sts st h).log.length ≤ 100)) ∧
    (∀ (g : WorkflowGraph) (it : Nat) (cur : Option Value) (st : StateDict) (h : Heap)
        (log : List LogEntry) (sts : StatusMap) (vis : List Value),
      runLoop g 0 it cur st h log sts vis = ⟨Except.ok st, log, h, sts, it⟩) := by
  constructor
  · intro g sts st h
    cases hge : g.entry_node with
    | none =>
      refine ⟨?_, ?_⟩
      · simp [WorkflowGraph.run, hge]
      · intro stf hok
        simp [WorkflowGraph.run, hge] at hok
    | some e =>
      have hrun : WorkflowGraph.run g sts st h =
          runLoop g 100 0 (Option.some (Value.vstr e)) st h [] sts [] := by
        simp [WorkflowGraph.run, hge]
      obtain ⟨k, hk, hit, hlog⟩ := runLoop_iter_log g 100 0 (Option.some (Value.vstr e)) st h [] sts []
      rw [hrun]
      refine ⟨by omega, ?_⟩
      intro stf hok
      have hl := hlog stf hok
      simp only [List.length_nil] at hl
      constructor
      · omega
      · omega
  · intro g it cur st h log sts vis
    exact runLoop_zero g it cur st h log sts vis

/-- Witness for C3 at a concrete run (scenario D). -/
theorem C3_witness :
    (WorkflowGraph.run gD [] initD []).iterations ≤ 100 ∧
    (WorkflowGraph.run gD [] initD []).log.length = (WorkflowGraph.run gD [] initD []).iterations ∧
    runLoop gD 0 7 (Option.some (Value.vstr "a")) initD [] [] [] [] =
      ⟨Except.ok initD, [], [], [], 7⟩ := by
  obtain ⟨hmain, hzero⟩ := C3_iteration_ceiling
  refine ⟨(hmain gD [] initD []).1, ?_, hzero gD 7 (Option.some (Value.vstr "a")) initD [] [] [] []⟩
  exact ((hmain gD [] initD []).2 [] (by decide)).1

/-- Claim C4: when the transform of the current node raises, the run
stops at once with the failure re-signalled (the outcome is the error,
nothing further executes), the node status becomes FAILED, and the trace
ends with two identical entries for the attempt, both with status
`failed` and the error message attached (the same entry dictionary is
appended twice). -/
theorem C4_failure_semantics (g : WorkflowGraph) (fuel it : Nat) (cv : Value)
    (st : StateDict) (h : Heap) (log : List LogEntry) (sts : StatusMap) (vis : List Value)
    (name : String) (f : Transform) (msg : String) (h1 : Heap)
    (ht : truthy h cv = true) (hn : lookupNodeV g cv = Option.some (name, f))
    (hf : f st h = (Except.error msg, h1)) :
    runLoop g (fuel + 1) it (Option.some cv) st h log sts vis =
      ⟨Except.error (RunError.nodeFailure msg),
       log ++ [⟨name, "failed", it + 1, Option.none, Option.some msg⟩,
               ⟨name, "failed", it + 1, Option.none, Option.some msg⟩],
       h1, setAssoc (setAssoc sts name NodeStatus.running) name NodeStatus.failed, it + 1⟩ ∧
    lookupAssoc (runLoop g (fuel + 1) it (Option.some cv) st h log sts vis).statuses name =
      Option.some NodeStatus.failed ∧
    nodeExecute f st h = (Except.error msg, h1, NodeStatus.failed) := by
  have he := runLoop_fail g fuel it cv st h log sts vis name f msg h1 ht hn hf
  refine ⟨he, ?_, ?_⟩
  · rw [he]
    exact lookupAssoc_setAssoc_self _ _ _
  · simp [nodeExecute, hf]

/-- Witness for C4: scenario B, where node `a` raises immediately. -/
theorem C4_witness :
    WorkflowGraph.run gB [] [] [] =
      ⟨Except.error (RunError.nodeFailure "boom"),
       [⟨"a", "failed", 1, Option.none, Option.some "boom"⟩,
        ⟨"a", "failed", 1, Option.none, Option.some "boom"⟩],
       [], setAssoc (setAssoc [] "a" NodeStatus.running) "a" NodeStatus.failed, 1⟩ ∧
    lookupAssoc (WorkflowGraph.run gB [] [] []).statuses "a" = Option.some NodeStatus.failed ∧
    nodeExecute failT [] [] = (Except.error "boom", [], NodeStatus.failed) := by
  have h := C4_failure_semantics gB 99 0 (Value.vstr "a") [] [] [] [] [] "a" failT "boom" []
    (by decide) rfl rfl
  exact ⟨h.1, h.2.1, h.2.2⟩

/-- Claim C9: the loop writes node statuses but never reads them, so the
result, trace, heap and iteration count of a run are identical for any
two status maps; in particular a second run of the same graph (starting
from the statuses the first run left behind) returns exactly what the
first run returned. -/
theorem C9_status_independence (g : WorkflowGraph) (st : StateDict) (h : Heap)
    (sts1 sts2 : StatusMap) :
    runView (WorkflowGraph.run g sts1 st h) = runView (WorkflowGraph.run g sts2 st h) := by
  cases hge : g.entry_node with
  | none => simp [WorkflowGraph.run, hge, runView]
  | some e =>
    simp only [WorkflowGraph.run, hge]
    exact runLoop_status_free g 100 0 (Option.some (Value.vstr e)) st h [] [] sts1 sts2

/-- Counterexample to claim C7: for an unhashable override value (a
list, `Value.vref`), the resolver pops the key and then raises TypeError
at the membership test `next_node in self.nodes` (engine.py line 150), so
it never returns a result, the run aborts with the TypeError, and the
claim that it otherwise returns empty fails on this branch. -/
theorem C7_counterexample :
    (WorkflowGraph.evaluate_conditional gD "if_route" [("route_to", Value.vref 0)]).1 =
      Except.error (RunError.typeError "unhashable type: 'list'") ∧
    (WorkflowGraph.run gD [] [("route_to", Value.vref 0)] [[Value.vint 7]]).result =
      Except.error (RunError.typeError "unhashable type: 'list'") := by
  decide

/-- Claim C7 (amended): whenever the conditional resolver runs on a state
carrying `route_to`, the key is popped from the state first, in every
case.  For a hashable value the resolver then returns normally: the
popped value exactly when it names an existing node, empty otherwise.
For an unhashable value (a list) the membership test raises TypeError
instead of returning, after the pop already happened.  With no `route_to`
the resolver returns empty and the state is untouched. -/
theorem C7_route_override_consumed (g : WorkflowGraph) (marker : String) (st : StateDict) :
    (∀ v, lookupAssoc st "route_to" = Option.some v →
      (WorkflowGraph.evaluate_conditional g marker st).2 = popAssoc st "route_to" ∧
      lookupAssoc (WorkflowGraph.evaluate_conditional g marker st).2 "route_to" =
        Option.none ∧
      ((∀ r, v ≠ Value.vref r) →
        (WorkflowGraph.evaluate_conditional g marker st).1 =
          Except.ok (if isNodeName g v then Option.some v else Option.none)) ∧
      (∀ r, v = Value.vref r →
        (WorkflowGraph.evaluate_conditional g marker st).1 =
          Except.error (RunError.typeError "unhashable type: 'list'"))) ∧
    (lookupAssoc st "route_to" = Option.none →
      WorkflowGraph.evaluate_conditional g marker st = (Except.ok Option.none, st)) := by
  constructor
  · intro v hv
    have h2 : (WorkflowGraph.evaluate_conditional g marker st).2 = popAssoc st "route_to" := by
      simp [WorkflowGraph.evaluate_conditional, hv]
    refine ⟨h2, by rw [h2]; exact lookupAssoc_popAssoc_self st "route_to", ?_, ?_⟩
    · intro hnr
      simp only [WorkflowGraph.evaluate_conditional, hv]
      cases v with
      | vref r => exact absurd rfl (hnr r)
      | vstr s2 => simp [isNodeName]
      | vint n => simp [isNodeName]
      | vbool b => simp [isNodeName]
      | vnone => simp [isNodeName]
    · intro r hvr
      subst hvr
      simp [WorkflowGraph.evaluate_conditional, hv]
  · intro hv
    simp [WorkflowGraph.evaluate_conditional, hv]

/-- Witness for C7 (amended): the scenario D resolver call (valid
target), a call without the override key, and an unhashable override. -/
theorem C7_witness :
    WorkflowGraph.evaluate_conditional gD "if_route" initD =
      (Except.ok (Option.some (Value.vstr "c")), []) ∧
    lookupAssoc (WorkflowGraph.evaluate_conditional gD "if_route" initD).2 "route_to" =
      Option.none ∧
    WorkflowGraph.evaluate_conditional gD "if_route" [("x", Value.vint 3)] =
      (Except.ok Option.none, [("x", Value.vint 3)]) ∧
    (WorkflowGraph.evaluate_conditional gD "if_route" [("route_to", Value.vref 0)]).1 =
      Except.error (RunError.typeError "unhashable type: 'list'") := by
  have h1 := (C7_route_override_consumed gD "if_route" initD).1 (Value.vstr "c") rfl
  have h2 := (C7_route_override_consumed gD "if_route" [("x", Value.vint 3)]).2 rfl
  have h3 := (C7_route_override_consumed gD "if_route" [("route_to", Value.vref 0)]).1
    (Value.vref 0) rfl
  refine ⟨?_, h1.2.1, h2, h3.2.2.2 0 rfl⟩
  have hfst := h1.2.2.1 (fun r => by intro hc; cases hc)
  have hpair : WorkflowGraph.evaluate_conditional gD "if_route" initD =
      ((WorkflowGraph.evaluate_conditional gD "if_route" initD).1,
       (WorkflowGraph.evaluate_conditional gD "if_route" initD).2) := rfl
  rw [hpair, hfst, h1.1]
  decide

/-- Claim C8: when the state carries a truthy `loop_continue` after a
node executed (inspected after the next node was computed from the static
edge or the conditional marker), the loop continues from the
`loop_node` target (defaulting to the entry node), ignoring whatever next
node was computed, and the flag is `False` in the state it continues
with, so one flag set causes exactly one extra jump. -/
theorem C8_loop_flag_override (g : WorkflowGraph) (fuel it : Nat) (cv : Value)
    (st : StateDict) (h : Heap) (log : List LogEntry) (sts : StatusMap) (vis : List Value)
    (name : String) (f : Transform) (st1 : StateDict) (h1 : Heap) (cur2 : Option Value)
    (ht : truthy h cv = true) (hn : lookupNodeV g cv = Option.some (name, f))
    (hf : f st h = (Except.ok st1, h1))
    (hrok : (routeNext g name st1).1 = Except.ok cur2)
    (hflag : truthy h1 ((lookupAssoc (routeNext g name st1).2 "loop_continue").getD
      (Value.vbool false)) = true) :
    runLoop g (fuel + 1) it (Option.some cv) st h log sts vis =
      runLoop g fuel (it + 1)
        (Option.some ((lookupAssoc (routeNext g name st1).2 "loop_node").getD
          (Value.vstr (g.entry_node.getD ""))))
        (setAssoc (routeNext g name st1).2 "loop_continue" (Value.vbool false)) h1
        (log ++ [⟨name, "completed", it + 1, Option.some st1, Option.none⟩])
        (setAssoc (setAssoc sts name NodeStatus.running) name NodeStatus.completed)
        (if cv ∈ vis then vis else cv :: vis) ∧
    lookupAssoc (setAssoc (routeNext g name st1).2 "loop_continue" (Value.vbool false))
      "loop_continue" = Option.some (Value.vbool false) :=
  ⟨runLoop_loop_step g fuel it cv st h log sts vis name f st1 h1 cur2 ht hn hf hrok hflag,
   lookupAssoc_setAssoc_self _ _ _⟩

/-- Witness for C8: scenario C, first execution of `check` requests a
loop back to `check` and the continuation state has the flag cleared. -/
theorem C8_witness :
    runLoop gC 100 0 (Option.some (Value.vstr "check")) [("count", Value.vint 0)] [] [] [] [] =
      runLoop gC 99 1 (Option.some (Value.vstr "check"))
        [("count", Value.vint 1), ("loop_continue", Value.vbool false),
         ("loop_node", Value.vstr "check")] []
        [⟨"check", "completed", 1,
          Option.some [("count", Value.vint 1), ("loop_continue", Value.vbool true),
            ("loop_node", Value.vstr "check")], Option.none⟩]
        [("check", NodeStatus.completed)] [Value.vstr "check"] ∧
    lookupAssoc [("count", Value.vint 1), ("loop_continue", Value.vbool false),
      ("loop_node", Value.vstr "check")] "loop_continue" =
      Option.some (Value.vbool false) := by
  have h := C8_loop_flag_override gC 99 0 (Value.vstr "check") [("count", Value.vint 0)]
    [] [] [] [] "check" checkT
    [("count", Value.vint 1), ("loop_continue", Value.vbool true),
     ("loop_node", Value.vstr "check")] [] Option.none
    (by decide) rfl rfl rfl (by decide)
  exact ⟨h.1, h.2⟩

/-- Claim C10: node lookups are unguarded.  An entry node naming a
missing node makes run raise KeyError on its first iteration; a loop
override whose `loop_node` names a missing node makes the next iteration
raise KeyError; only an unset entry node is checked (ValueError), and
only the conditional resolver validates its target. -/
theorem C10_unvalidated_lookups :
    (∀ (g : WorkflowGraph) (sts : StatusMap) (st : StateDict) (h : Heap) (name : String),
      g.entry_node = Option.some name → name ≠ "" → lookupAssoc g.nodes name = Option.none →
      (WorkflowGraph.run g sts st h).result =
        Except.error (RunError.keyError (Value.vstr name))) ∧
    (∀ (g : WorkflowGraph) (sts : StatusMap) (st : StateDict) (h : Heap),
      g.entry_node = Option.none →
      WorkflowGraph.run g sts st h =
        ⟨Except.error (RunError.valueError "No entry node defined"), [], h, sts, 0⟩) ∧
    (∀ (g : WorkflowGraph) (fuel it : Nat) (cv : Value) (st : StateDict) (h : Heap)
        (log : List LogEntry) (sts : StatusMap) (vis : List Value)
        (name : String) (f : Transform) (st1 : StateDict) (h1 : Heap) (t : String)
        (cur2 : Option Value),
      truthy h cv = true → lookupNodeV g cv = Option.some (name, f) →
      f st h = (Except.ok st1, h1) →
      (routeNext g name st1).1 = Except.ok cur2 →
      truthy h1 ((lookupAssoc (routeNext g name st1).2 "loop_continue").getD
        (Value.vbool false)) = true →
      lookupAssoc (routeNext g name st1).2 "loop_node" = Option.some (Value.vstr t) →
      t ≠ "" → lookupAssoc g.nodes t = Option.none →
      (runLoop g (fuel + 2) it (Option.some cv) st h log sts vis).result =
        Except.error (RunError.keyError (Value.vstr t))) := by
  refine ⟨?_, ?_, ?_⟩
  · intro g sts st h name hge hne hmiss
    have hrun : WorkflowGraph.run g sts st h =
        runLoop g 100 0 (Option.some (Value.vstr name)) st h [] sts [] := by
      simp [WorkflowGraph.run, hge]
    rw [hrun, show (100 : Nat) = 99 + 1 from rfl,
        runLoop_keyError g 99 0 (Value.vstr name) st h [] sts []
          (by simp [truthy, hne]) (by simp [lookupNodeV, hmiss])]
    rfl
  · intro g sts st h hge
    simp [WorkflowGraph.run, hge]
  · intro g fuel it cv st h log sts vis name f st1 h1 t cur2 ht hn hf hrok hflag hln hne hmiss
    rw [show fuel + 2 = (fuel + 1) + 1 from rfl,
        runLoop_loop_step g (fuel + 1) it cv st h log sts vis name f st1 h1 cur2
          ht hn hf hrok hflag,
        hln]
    simp only [Option.getD_some]
    rw [runLoop_keyError g fuel (it + 1) (Value.vstr t) _ h1 _ _ _
      (by simp [truthy, hne]) (by simp [lookupNodeV, hmiss])]
    rfl

/-- Witness for C10: a graph whose entry node is the missing name
`ghost`, a graph with no entry node, and a graph whose single node
requests a loop to the missing node `ghost`. -/
theorem C10_witness :
    (WorkflowGraph.run gBad [] [] []).result =
      Except.error (RunError.keyError (Value.vstr "ghost")) ∧
    WorkflowGraph.run gNone [] [] [] =
      ⟨Except.error (RunError.valueError "No entry node defined"), [], [], [], 0⟩ ∧
    (WorkflowGraph.run gGhostLoop [] [] []).result =
      Except.error (RunError.keyError (Value.vstr "ghost")) := by
  obtain ⟨h1, h2, h3⟩ := C10_unvalidated_lookups
  refine ⟨h1 gBad [] [] [] "ghost" rfl (by decide) rfl, h2 gNone [] [] [] rfl, ?_⟩
  exact h3 gGhostLoop 98 0 (Value.vstr "a") [] [] [] [] [] "a" ghostLoopT
    [("loop_continue", Value.vbool true), ("loop_node", Value.vstr "ghost")] [] "ghost"
    Option.none (by decide) rfl rfl rfl (by decide) (by decide) (by decide) rfl

/-- Counterexample to claim C5: `run` copies the initial state with a
shallow `dict.copy()`, so nested mutable values stay shared.  One node
appending to the list behind `xs` changes what the caller observes
through the original state, even though the run returned normally. -/
theorem C5_counterexample :
    observeState (WorkflowGraph.run g5 [] initRef heapRef).heap initRef ≠
      observeState heapRef initRef ∧
    (WorkflowGraph.run g5 [] initRef heapRef).result = Except.ok initRef := by
  decide

/-- Claim C5 (amended): the shallow copy protects the top level of the
caller state (the dictionary object itself is copied, never written
through), so the caller-visible contents are unchanged by the run
whenever no transform overwrites a pre-existing heap cell in place. -/
theorem C5_shallow_copy_isolation (g : WorkflowGraph) (sts : StatusMap) (st : StateDict)
    (h : Heap)
    (htrans : ∀ name f, lookupAssoc g.nodes name = Option.some f → heapPreserves f)
    (hrefs : ∀ p, p ∈ st → ∀ r, p.2 = Value.vref r → h[r]? ≠ Option.none) :
    observeState (WorkflowGraph.run g sts st h).heap st = observeState h st := by
  cases hge : g.entry_node with
  | none =>
    have hh : (WorkflowGraph.run g sts st h).heap = h := by simp [WorkflowGraph.run, hge]
    rw [hh]
  | some e =>
    have hrun : (WorkflowGraph.run g sts st h).heap =
        (runLoop g 100 0 (Option.some (Value.vstr e)) st h [] sts []).heap := by
      simp [WorkflowGraph.run, hge]
    rw [hrun]
    unfold observeState
    apply List.map_congr_left
    intro p hp
    obtain ⟨k, w⟩ := p
    cases w with
    | vref r =>
      have hne := hrefs (k, Value.vref r) hp r rfl
      cases hr : h[r]? with
      | none => exact absurd hr hne
      | some v =>
        have hpres := runLoop_heap_stable g htrans 100 0 (Option.some (Value.vstr e))
          st h [] sts [] r v hr
        simp [observe, hr, hpres]
    | vint n => rfl
    | vstr s2 => rfl
    | vbool b => rfl
    | vnone => rfl

/-- Witness for C5 (amended): a run whose single transform never touches
the heap leaves the caller-observed state intact. -/
theorem C5_witness :
    observeState (WorkflowGraph.run gI [] initRef heapRef).heap initRef =
      observeState heapRef initRef := by
  apply C5_shallow_copy_isolation
  · intro name f hf
    by_cases hn : "a" = name
    · have hfi : f = idT := by
        simp [gI, lookupAssoc, hn] at hf
        exact hf.symm
      rw [hfi]
      intro st2 h2 r v hv
      exact hv
    · simp [gI, lookupAssoc, hn] at hf
  · intro p hp r hv
    have hp2 : p = ("xs", Value.vref 0) := by simpa [initRef] using hp
    subst hp2
    have hr0 : r = 0 := by simpa using hv.symm
    subst hr0
    decide

/-- Counterexample to claim C6: the snapshot attached on success is
`state.copy()`, a shallow copy.  In the chain `a → b` both snapshots are
the dictionary `xs = ref 0`; after node `b` mutates heap cell 0, reading
the first snapshot gives different contents than at the time it was
taken, so later in-place mutations do alter what earlier snapshots
record. -/
theorem C6_counterexample :
    (WorkflowGraph.run g6 [] initRef heapRef).log.map LogEntry.state_snapshot =
      [Option.some initRef, Option.some initRef] ∧
    observeState (WorkflowGraph.run g6 [] initRef heapRef).heap initRef ≠
      observeState heapRef initRef := by
  decide

/-- Claim C6 (amended): on success the just-appended entry carries status
`completed` and a snapshot that is a shallow copy of the resulting state;
entries already in the trace are append-only (their top-level contents
are never rewritten), but snapshots share nested mutable values with the
live state. -/
theorem C6_snapshot_shallow :
    (∀ (g : WorkflowGraph) (fuel it : Nat) (cur : Option Value) (st : StateDict) (h : Heap)
        (log : List LogEntry) (sts : StatusMap) (vis : List Value),
      ∃ tail, (runLoop g fuel it cur st h log sts vis).log = log ++ tail) ∧
    (∀ (g : WorkflowGraph) (fuel it : Nat) (cv : Value) (st : StateDict) (h : Heap)
        (log : List LogEntry) (sts : StatusMap) (vis : List Value)
        (name : String) (f : Transform) (st1 : StateDict) (h1 : Heap),
      truthy h cv = true → lookupNodeV g cv = Option.some (name, f) →
      f st h = (Except.ok st1, h1) →
      ∃ tail, (runLoop g (fuel + 1) it (Option.some cv) st h log sts vis).log =
        log ++ ⟨name, "completed", it + 1, Option.some st1, Option.none⟩ :: tail) := by
  constructor
  · intro g fuel it cur st h log sts vis
    exact runLoop_log_extends g fuel it cur st h log sts vis
  · intro g fuel it cv st h log sts vis name f st1 h1 ht hn hf
    cases hroute : (routeNext g name st1).1 with
    | error e =>
      refine ⟨[], ?_⟩
      rw [runLoop_route_error g fuel it cv st h log sts vis name f st1 h1 e ht hn hf hroute]
    | ok cur2 =>
      cases hflag : truthy h1 ((lookupAssoc (routeNext g name st1).2 "loop_continue").getD
          (Value.vbool false)) with
      | true =>
        rw [runLoop_loop_step g fuel it cv st h log sts vis name f st1 h1 cur2
              ht hn hf hroute hflag]
        obtain ⟨tail, htail⟩ := runLoop_log_extends g fuel (it + 1) _ _ h1 _ _ _
        exact ⟨tail, by rw [htail]; simp⟩
      | false =>
        cases cur2 with
        | none =>
          refine ⟨[], ?_⟩
          rw [runLoop_cont_none g fuel it cv st h log sts vis name f st1 h1
                ht hn hf hflag hroute]
        | some nv =>
          rw [runLoop_cont_some g fuel it cv st h log sts vis name f st1 h1 nv
                ht hn hf hflag hroute]
          obtain ⟨tail, htail⟩ := runLoop_log_extends g fuel (it + 1) _ _ h1 _ _ _
          exact ⟨tail, by rw [htail]; simp⟩

/-- Witness for C6 (amended), instantiated on the two-node chain. -/
theorem C6_witness :
    (∃ tail, (runLoop g6 100 0 (Option.some (Value.vstr "a")) initRef heapRef
        [⟨"seed", "completed", 0, Option.none, Option.none⟩] [] []).log =
      [⟨"seed", "completed", 0, Option.none, Option.none⟩] ++ tail) ∧
    (∃ tail, (runLoop g6 100 0 (Option.some (Value.vstr "a")) initRef heapRef [] [] []).log =
      [] ++ ⟨"a", "completed", 1, Option.some initRef, Option.none⟩ :: tail) := by
  obtain ⟨h1, h2⟩ := C6_snapshot_shallow
  refine ⟨h1 g6 100 0 _ initRef heapRef _ [] [], ?_⟩
  exact h2 g6 99 0 (Value.vstr "a") initRef heapRef [] [] [] "a" idT initRef heapRef
    (by decide) rfl rfl

/-- Claim C2 (amended): for a graph whose node set is exactly a linear
chain of N names (no `if_` markers among the successors, every transform
succeeding without ever leaving a truthy loop flag), with N at most 100,
run executes every node exactly once in edge order and the trace has
exactly N completed entries with iteration numbers 1..N. -/
theorem C2_linear_chain (g : WorkflowGraph) (n1 : String) (rest : List String)
    (sts : StatusMap) (st : StateDict) (h : Heap)
    (hentry : g.entry_node = Option.some n1)
    (hnodes : g.nodes.map Prod.fst = n1 :: rest)
    (hchain : chainFrom g (n1 :: rest))
    (hlen : (n1 :: rest).length ≤ 100) :
    ∃ entries stf hfin stsf,
      WorkflowGraph.run g sts st h =
        ⟨Except.ok stf, entries, hfin, stsf, (n1 :: rest).length⟩ ∧
      entries.map LogEntry.node = n1 :: rest ∧
      entries.map LogEntry.status = (n1 :: rest).map (fun _ => "completed") ∧
      entries.map LogEntry.iteration = iterRange 1 (n1 :: rest).length := by
  obtain ⟨entries, stf, hfin, stsf, heq, h2, h3, h4⟩ :=
    chain_run_ok g (n1 :: rest) 100 0 st h [] sts [] hchain hlen
  refine ⟨entries, stf, hfin, stsf, ?_, h2, h3, h4⟩
  have hrun : WorkflowGraph.run g sts st h =
      runLoop g 100 0 (Option.some (Value.vstr n1)) st h [] sts [] := by
    simp [WorkflowGraph.run, hentry]
  rw [hrun, show Option.some (Value.vstr n1) = curOf (n1 :: rest) from rfl, heq]
  simp

/-- Witness for C2 (amended): the three-node chain `0 → 1 → 2`. -/
theorem C2_witness :
    ∃ entries stf hfin stsf,
      WorkflowGraph.run (chainGraph 3) [] [] [] =
        ⟨Except.ok stf, entries, hfin, stsf, (cName 0 :: [cName 1, cName 2]).length⟩ ∧
      entries.map LogEntry.node = cName 0 :: [cName 1, cName 2] ∧
      entries.map LogEntry.status =
        (cName 0 :: [cName 1, cName 2]).map (fun _ => "completed") ∧
      entries.map LogEntry.iteration = iterRange 1 (cName 0 :: [cName 1, cName 2]).length :=
  C2_linear_chain (chainGraph 3) (cName 0) [cName 1, cName 2] [] [] [] rfl rfl
    (chainFrom_chainGraph 3 (by decide)) (by decide)

/-- Counterexample to claim C2 as stated for every N: the 101-node linear
chain (101 nodes, 100 edges, transforms that never raise and never set a
loop flag) is cut off by the iteration ceiling: the returned trace has
100 entries, not 101, so the last node never executes. -/
theorem C2_counterexample :
    (WorkflowGraph.run (chainGraph 101) [] [] []).log.length = 100 ∧
    (chainGraph 101).nodes.length = 101 ∧
    (chainGraph 101).edges.length = 100 := by
  refine ⟨?_, ?_, ?_⟩
  · obtain ⟨entries, stf, hfin, stsf, heq, hlen⟩ :=
      chain_run_trunc (chainGraph 101) 100 (chainNames 101) 0 [] [] [] [] []
        (chainFrom_chainGraph 101 (by decide)) (by simp [chainNames])
    have hrun : WorkflowGraph.run (chainGraph 101) [] [] [] =
        runLoop (chainGraph 101) 100 0 (curOf (chainNames 101)) [] [] [] [] [] := rfl
    rw [hrun, heq]
    simp [hlen]
  · simp [chainGraph, chainNames]
  · simp [chainGraph]
